import Mathlib

/-
  Verification of the TravelTrackerMap rendering and gesture core
  (src/src/App.tsx) against its natural-language specification.

  The embedding is over exact rational arithmetic. JS numbers are modeled
  as rationals; where a claim depends on non-finite JS results (division
  by zero) a dedicated Option-valued model tracks finiteness (jsDiv).
  The SVG path string built by createPath is modeled as the list of its
  drawing commands (move, line, close) in emission order; the empty
  string corresponds to the empty list.
-/

-- ## Projection (App.tsx lines 76-83)

def MAP_WIDTH : ℚ := 1000

def MAP_HEIGHT : ℚ := 500

/-- Equirectangular projection, from the source:
x = (lon + 180) * (MAP_WIDTH / 360); y = ((-lat) + 90) * (MAP_HEIGHT / 180). -/
def project (lon lat : ℚ) : ℚ × ℚ :=
  ((lon + 180) * (MAP_WIDTH / 360), ((-lat) + 90) * (MAP_HEIGHT / 180))

-- ## Geometry data model (App.tsx lines 54-67)

/-- A ring point as it arrives from GeoJSON: an array of coordinates.
A point that is not an array at all is validated identically to a
too-short array by the source (Array.isArray(point) fails the same
check as point.length < 2), so both are modeled as a list of length
less than two. -/
abbrev GeoPoint := List ℚ

abbrev GeoRing := List GeoPoint

/-- The geometry field of a feature. polygon and multiPolygon carry the
coordinates with the nesting the source expects; otherType stands for a
geometry whose type tag is neither Polygon nor MultiPolygon (its
coordinates are present but never read by createPath); missingCoords
stands for a geometry object whose coordinates field is null or absent. -/
inductive Geometry where
  | polygon (rings : List GeoRing)
  | multiPolygon (polys : List (List GeoRing))
  | otherType
  | missingCoords

/-- One SVG path drawing command. The source appends the strings
M{x},{y}, L{x},{y} and Z; the path is modeled as the command list. -/
inductive PathCmd where
  | move (x y : ℚ)
  | line (x y : ℚ)
  | close
deriving DecidableEq

def isMoveCmd : PathCmd → Bool
  | PathCmd.move _ _ => true
  | _ => false

def isLineCmd : PathCmd → Bool
  | PathCmd.line _ _ => true
  | _ => false

def isCloseCmd : PathCmd → Bool
  | PathCmd.close => true
  | _ => false

/-- A command that draws from a ring point (a move or a line). -/
def isDrawCmd (c : PathCmd) : Bool := isMoveCmd c || isLineCmd c

-- ## PathBuilder (App.tsx lines 85-118)

/-- The body of the forEach in drawPolygon at one index: skip the point
unless it is an array of length at least 2, otherwise project it and
emit M at index 0 and L at any later index. -/
def pointCmds (i : Nat) (p : GeoPoint) : List PathCmd :=
  if 2 ≤ p.length then
    let lon := p.getD 0 0
    let lat := p.getD 1 0
    let xy := project lon lat
    if i = 0 then [PathCmd.move xy.1 xy.2] else [PathCmd.line xy.1 xy.2]
  else []

/-- coords.forEach((point, i) => ...) of drawPolygon, carrying the index. -/
def drawPoints : Nat → GeoRing → List PathCmd
  | _, [] => []
  | i, p :: ps => pointCmds i p ++ drawPoints (i + 1) ps

/-- drawPolygon (App.tsx lines 91-104): per-point commands followed by an
unconditional close (the source always appends the literal Z). -/
def drawPolygon (coords : GeoRing) : List PathCmd :=
  drawPoints 0 coords ++ [PathCmd.close]

/-- createPath (App.tsx lines 85-118): empty result when the geometry is
missing or its coordinates are missing; one traced subpath per ring for
Polygon and MultiPolygon; empty result for any other type tag. -/
def createPath (geometry : Option Geometry) : List PathCmd :=
  match geometry with
  | none => []
  | some Geometry.missingCoords => []
  | some (Geometry.polygon rings) =>
      rings.foldl (fun path ring => path ++ drawPolygon ring) []
  | some (Geometry.multiPolygon polys) =>
      polys.foldl (fun path poly =>
        poly.foldl (fun path2 ring => path2 ++ drawPolygon ring) path) []
  | some Geometry.otherType => []

/-- Number of valid points of a ring (arrays of at least 2 coordinates). -/
def validCount (r : GeoRing) : Nat := r.countP (fun p => decide (2 ≤ p.length))

-- ## LabelAnchor (App.tsx lines 121-153), under JS semantics

/-- Outcome of a JS computation that can throw: throws models an
uncaught TypeError aborting the computation, returns a normal result. -/
inductive JSOutcome (α : Type) where
  | throws
  | returns (val : α)
deriving DecidableEq

/-- project applied to the JS-indexed coordinates p[0] and p[1] of a
ring point: an out-of-range index yields undefined and the arithmetic
of project then yields NaN. In this Option-valued model none stands for
a non-finite number (NaN, or a never-replaced Infinity sentinel in the
bbox folds below) and some q for a finite value. The x output depends
only on the first coordinate and the y output only on the second, as
in the source. -/
def projectJS (lon lat : Option ℚ) : Option ℚ × Option ℚ :=
  (lon.map (fun v => (v + 180) * (MAP_WIDTH / 360)),
   lat.map (fun v => ((-v) + 90) * (MAP_HEIGHT / 180)))

/-- The projected x coordinates of a ring's points, project(p[0], p[1]).x. -/
def ringXs (r : GeoRing) : List (Option ℚ) :=
  r.map (fun p => (projectJS (p.get? 0) (p.get? 1)).1)

/-- The projected y coordinates of a ring's points, project(p[0], p[1]).y. -/
def ringYs (r : GeoRing) : List (Option ℚ) :=
  r.map (fun p => (projectJS (p.get? 0) (p.get? 1)).2)

/-- One update of minX: if (x < minX) minX = x. minX starts at the
Infinity sentinel (none); a NaN x (none) fails the comparison and
leaves minX unchanged; a finite x always replaces the sentinel
(x < Infinity) and replaces a finite minX exactly when smaller. -/
def foldMinStepJS (m x : Option ℚ) : Option ℚ :=
  match x with
  | none => m
  | some v =>
      match m with
      | none => some v
      | some m0 => if v < m0 then some v else some m0

def foldMinJS (xs : List (Option ℚ)) : Option ℚ := xs.foldl foldMinStepJS none

/-- One update of maxX: if (x > maxX) maxX = x, with the minus-Infinity
sentinel as none, symmetric to foldMinStepJS. -/
def foldMaxStepJS (m x : Option ℚ) : Option ℚ :=
  match x with
  | none => m
  | some v =>
      match m with
      | none => some v
      | some m0 => if m0 < v then some v else some m0

def foldMaxJS (xs : List (Option ℚ)) : Option ℚ := xs.foldl foldMaxStepJS none

/-- (a + b) / 2 on JS numbers: finite when both operands are finite;
any non-finite operand makes the result non-finite (in particular the
empty bbox gives (Infinity + (-Infinity)) / 2 = NaN). -/
def midJS (a b : Option ℚ) : Option ℚ :=
  match a, b with
  | some a0, some b0 => some ((a0 + b0) / 2)
  | _, _ => none

/-- The poly[0].length test of the MultiPolygon forEach (App.tsx line
132): on a ring-less polygon poly[0] is undefined and undefined.length
throws a TypeError; otherwise the accumulator (maxLen, bestRing) is
updated when the strict comparison succeeds. -/
def bestRingStepJS (acc : Nat × GeoRing) (poly : List GeoRing) :
    JSOutcome (Nat × GeoRing) :=
  match poly.head? with
  | none => JSOutcome.throws
  | some r => JSOutcome.returns (if acc.1 < r.length then (r.length, r) else acc)

/-- The MultiPolygon forEach of getLabelPosition (App.tsx lines
130-136): a thrown TypeError aborts the iteration and propagates. -/
def bestRingMultiJS : List (List GeoRing) → Nat × GeoRing → JSOutcome (Nat × GeoRing)
  | [], acc => JSOutcome.returns acc
  | poly :: ps, acc =>
      match bestRingStepJS acc poly with
      | JSOutcome.throws => JSOutcome.throws
      | JSOutcome.returns acc2 => bestRingMultiJS ps acc2

/-- The first rings the MultiPolygon fold inspects, one per polygon
(used to state theorems whose hypotheses make every polygon nonempty,
so headD there is the polygon's actual first ring). -/
def firstRings (polys : List (List GeoRing)) : List GeoRing :=
  polys.map (fun poly => poly.headD [])

/-- The tail of getLabelPosition once bestRing is chosen (App.tsx lines
139-152): null when the ring is empty, else the per-axis bbox midpoint.
The source computes minX/maxX/minY/maxY in one pass over the points;
the four updates are independent, so they are modeled as one fold per
bound. -/
def labelFromBestRing (bestRing : GeoRing) :
    JSOutcome (Option (Option ℚ × Option ℚ)) :=
  if bestRing.isEmpty then JSOutcome.returns none
  else JSOutcome.returns (some
    (midJS (foldMinJS (ringXs bestRing)) (foldMaxJS (ringXs bestRing)),
     midJS (foldMinJS (ringYs bestRing)) (foldMaxJS (ringYs bestRing))))

/-- getLabelPosition (App.tsx lines 121-153) under JS semantics. The
Polygon branch guards coordinates.length > 0 and cannot throw; the
MultiPolygon branch propagates the TypeError of bestRingMultiJS; a
geometry with an unrecognized type tag leaves bestRing = [] and falls
through to null; missingCoords stands for a Polygon- or
MultiPolygon-tagged geometry whose coordinates field is null, where the
branch test itself (null.length or null.forEach) throws. -/
def getLabelPositionJS (geometry : Geometry) :
    JSOutcome (Option (Option ℚ × Option ℚ)) :=
  match geometry with
  | Geometry.polygon rings => labelFromBestRing (rings.headD [])
  | Geometry.multiPolygon polys =>
      match bestRingMultiJS polys (0, []) with
      | JSOutcome.throws => JSOutcome.throws
      | JSOutcome.returns best => labelFromBestRing best.2
  | Geometry.otherType => labelFromBestRing []
  | Geometry.missingCoords => JSOutcome.throws

-- ## ViewportTransform and gesture state (App.tsx lines 167-180, 435-564)

structure Transform where
  k : ℚ
  x : ℚ
  y : ℚ
deriving DecidableEq

/-- The element-relative bounding rectangle reported by
getBoundingClientRect on the map element. -/
structure Rect where
  left : ℚ
  top : ℚ
  width : ℚ
  height : ℚ
deriving DecidableEq

/-- handleZoom (App.tsx lines 437-448): clamp the scale to [1, 8] and
zoom towards the canvas center. -/
def handleZoom (factor : ℚ) (prev : Transform) : Transform :=
  let newK := max 1 (min 8 (prev.k * factor))
  let cx := MAP_WIDTH / 2
  let cy := MAP_HEIGHT / 2
  { k := newK
    x := cx - (cx - prev.x) * (newK / prev.k)
    y := cy - (cy - prev.y) * (newK / prev.k) }

/-- The transform update of handleWheel (App.tsx lines 454-478): scale
factor 0.9 when deltaY > 0 and 1.1 otherwise, clamped, anchored at the
cursor position converted to viewbox coordinates. -/
def handleWheel (deltaY clientX clientY : ℚ) (rect : Rect) (prev : Transform) :
    Transform :=
  let scaleFactor : ℚ := if 0 < deltaY then 9 / 10 else 11 / 10
  let newK := max 1 (min 8 (prev.k * scaleFactor))
  let mx := clientX - rect.left
  let my := clientY - rect.top
  let svgMx := mx * (MAP_WIDTH / rect.width)
  let svgMy := my * (MAP_HEIGHT / rect.height)
  { k := newK
    x := svgMx - (svgMx - prev.x) * (newK / prev.k)
    y := svgMy - (svgMy - prev.y) * (newK / prev.k) }

/-- The pinch branch of handleTouchMove (App.tsx lines 529-551): the
desired scale is the pinch-start scale times the ratio of the current
inter-finger distance to the pinch-start distance, clamped, anchored at
the touch midpoint converted to viewbox coordinates against the current
transform. -/
def handleTouchMovePinch (currentDistance midX midY : ℚ) (rect : Rect)
    (pinchDistance pinchStartScale : ℚ) (prev : Transform) : Transform :=
  let scaleFactor := currentDistance / pinchDistance
  let desiredScale := max 1 (min 8 (pinchStartScale * scaleFactor))
  let mx := midX - rect.left
  let my := midY - rect.top
  let svgMx := mx * (MAP_WIDTH / rect.width)
  let svgMy := my * (MAP_HEIGHT / rect.height)
  { k := desiredScale
    x := svgMx - (svgMx - prev.x) * (desiredScale / prev.k)
    y := svgMy - (svgMy - prev.y) * (desiredScale / prev.k) }

/-- The mutable state the gesture handlers read and write: the transform
plus isDragging, lastMousePos, isDragRef, pinchDistanceRef and
pinchStartScaleRef (App.tsx lines 167-173). -/
structure MapState where
  transform : Transform
  isDragging : Bool
  lastMousePos : ℚ × ℚ
  isDragRef : Bool
  pinchDistance : Option ℚ
  pinchStartScale : ℚ
deriving DecidableEq

/-- The initial state: transform {k: 1, x: 0, y: 0}, not dragging, drag
flag clear, no pinch baseline, pinch-start scale 1. -/
def initState : MapState :=
  { transform := { k := 1, x := 0, y := 0 }
    isDragging := false
    lastMousePos := (0, 0)
    isDragRef := false
    pinchDistance := none
    pinchStartScale := 1 }

/-- Input events, one per handler invocation. mapRect is the bounding
rectangle when the map element ref is non-null, none otherwise. A
single-finger touch start or move is dispatched by the source to
handleMouseDown / handleMouseMove and is represented by the mouse
events. For two-finger events the positions enter the handlers only
through getTouchDistance (the Euclidean inter-finger distance, an
irrational square root abstracted here as the event datum) and
getTouchMidpoint; touch0X/touch0Y are the first touch coordinates used
when the pinch branch is not taken. -/
inductive Event where
  | zoomButton (factor : ℚ)
  | resetZoom
  | wheel (deltaY clientX clientY : ℚ) (mapRect : Option Rect)
  | mouseDown (clientX clientY : ℚ)
  | mouseMove (clientX clientY : ℚ) (mapRect : Option Rect)
  | mouseUp
  | touchStartPinch (distance : ℚ)
  | touchMovePinch (distance midX midY touch0X touch0Y : ℚ) (mapRect : Option Rect)
  | touchEnd (remainingTouches : Nat)

/-- handleMouseDown (App.tsx lines 480-486). -/
def handleMouseDown (clientX clientY : ℚ) (s : MapState) : MapState :=
  { s with isDragging := true, isDragRef := false,
           lastMousePos := (clientX, clientY) }

/-- handleMouseMove (App.tsx lines 488-516): no-op unless dragging;
delta from the previous position; the drag flag becomes sticky once a
single delta exceeds 2 in either axis; the pan is the delta times
MAP_WIDTH / rect.width, with ratio 1 when the map element ref is null. -/
def handleMouseMove (clientX clientY : ℚ) (mapRect : Option Rect)
    (s : MapState) : MapState :=
  if s.isDragging then
    let dx := clientX - s.lastMousePos.1
    let dy := clientY - s.lastMousePos.2
    let dragFlag := if 2 < |dx| ∨ 2 < |dy| then true else s.isDragRef
    let scaleRatio : ℚ :=
      match mapRect with
      | some rect => MAP_WIDTH / rect.width
      | none => 1
    { s with isDragRef := dragFlag
             transform := { s.transform with
                              x := s.transform.x + dx * scaleRatio
                              y := s.transform.y + dy * scaleRatio }
             lastMousePos := (clientX, clientY) }
  else s

/-- handleMouseUp (App.tsx lines 561-564): only stops dragging; the
comment in the source states that isDragRef is reset on the next
mousedown. -/
def handleMouseUp (s : MapState) : MapState := { s with isDragging := false }

/-- Whether handleCountryClick (App.tsx lines 297-302) lets a click on a
feature through: it returns early when isDragRef is set. -/
def handleCountryClick (s : MapState) : Bool := if s.isDragRef then false else true

/-- One event step of the gesture controller. handleTouchStart with two
fingers captures the pinch baseline and cancels drag bookkeeping;
handleTouchMove takes the pinch branch only when there are two fingers,
a truthy (non-null, nonzero) pinch distance and a non-null map ref, and
otherwise falls through to handleMouseMove; handleTouchEnd below two
remaining touches clears the pinch baseline and re-captures the scale,
then behaves as handleMouseUp. -/
def stepEvent (s : MapState) (e : Event) : MapState :=
  match e with
  | Event.zoomButton factor => { s with transform := handleZoom factor s.transform }
  | Event.resetZoom => { s with transform := { k := 1, x := 0, y := 0 } }
  | Event.wheel deltaY cx cy mapRect =>
      match mapRect with
      | none => s
      | some rect => { s with transform := handleWheel deltaY cx cy rect s.transform }
  | Event.mouseDown cx cy => handleMouseDown cx cy s
  | Event.mouseMove cx cy mapRect => handleMouseMove cx cy mapRect s
  | Event.mouseUp => handleMouseUp s
  | Event.touchStartPinch distance =>
      { s with pinchDistance := some distance
               pinchStartScale := s.transform.k
               isDragRef := false
               isDragging := false }
  | Event.touchMovePinch distance midX midY t0x t0y mapRect =>
      match s.pinchDistance, mapRect with
      | some d0, some rect =>
          if d0 = 0 then handleMouseMove t0x t0y mapRect s
          else { s with transform :=
                   (handleTouchMovePinch distance midX midY rect d0
                     s.pinchStartScale s.transform) }
      | _, _ => handleMouseMove t0x t0y mapRect s
  | Event.touchEnd remaining =>
      let s1 :=
        if remaining < 2 then
          { s with pinchDistance := none, pinchStartScale := s.transform.k }
        else s
      handleMouseUp s1

/-- Run a finite event sequence from the initial state. -/
def runEvents (evs : List Event) : MapState := evs.foldl stepEvent initState

/-- A single-pointer session: pointer-down at p0, a list of successive
move positions, then pointer-up. -/
def runSession (p0 : ℚ × ℚ) (moves : List (ℚ × ℚ)) : MapState :=
  runEvents (Event.mouseDown p0.1 p0.2 ::
    (moves.map (fun m => Event.mouseMove m.1 m.2 none) ++ [Event.mouseUp]))

/-- The threshold test the source applies to one move: some axis delta
between consecutive positions strictly exceeds 2 screen pixels. -/
def moveExceeds (a b : ℚ × ℚ) : Bool :=
  decide (2 < |b.1 - a.1|) || decide (2 < |b.2 - a.2|)

-- ## JS division semantics for the zero-width-canvas claim

/-- Division of finite JS numbers: dividing by zero yields Infinity or
NaN, a non-finite result modeled as none; some q is the finite quotient. -/
def jsDiv (a b : ℚ) : Option ℚ := if b = 0 then none else some (a / b)

/-- The scaleRatio computed by handleMouseMove (App.tsx lines 502-507)
under JS division semantics: it defaults to 1 and is overwritten with
MAP_WIDTH / rect.width whenever the map element ref is non-null. -/
def mouseMoveScaleRatioJS (mapRect : Option Rect) : Option ℚ :=
  match mapRect with
  | none => some 1
  | some rect => jsDiv MAP_WIDTH rect.width

/-- The svgMx coordinate computed by handleWheel (App.tsx lines 463-470)
under JS division semantics: (clientX - rect.left) * (MAP_WIDTH / rect.width). -/
def wheelSvgMxJS (clientX : ℚ) (rect : Rect) : Option ℚ :=
  (jsDiv MAP_WIDTH rect.width).map (fun q => (clientX - rect.left) * q)

/-- The svgMx coordinate computed by the pinch branch of handleTouchMove
(App.tsx lines 536-541) under JS division semantics. -/
def pinchSvgMxJS (midX : ℚ) (rect : Rect) : Option ℚ :=
  (jsDiv MAP_WIDTH rect.width).map (fun q => (midX - rect.left) * q)

-- ## Spec-side properties

/-- Focal-point invariance of one zoom step: the plane coordinate that
the transform maps to the focal point (fx, fy) is the same before and
after. -/
def focalInvariantAt (prev next : Transform) (fx fy : ℚ) : Prop :=
  (fx - next.x) / next.k = (fx - prev.x) / prev.k
    ∧ (fy - next.y) / next.k = (fy - prev.y) / prev.k

/-- c is the bounding-box midpoint of one axis of projected
coordinates: either some coordinates are finite and c is the average of
an attained minimum and an attained maximum over exactly those (NaN
coordinates of short points never win a comparison and are skipped), or
no coordinate is finite and c is non-finite (NaN). -/
def isBBoxMidJS (coords : List (Option ℚ)) (c : Option ℚ) : Prop :=
  (∃ vmin vmax : ℚ,
      vmin ∈ coords.filterMap id ∧ vmax ∈ coords.filterMap id
      ∧ (∀ v ∈ coords.filterMap id, vmin ≤ v ∧ v ≤ vmax)
      ∧ c = some ((vmin + vmax) / 2))
    ∨ (coords.filterMap id = [] ∧ c = none)

-- ## Theorems for claims on the path builder

/-- C9: a feature whose geometry is missing or null, whose geometry
lacks coordinates, or whose geometry type is neither Polygon nor
MultiPolygon yields the empty path; createPath is total, so no
exception propagates. -/
theorem missing_geometry_empty_path :
    createPath none = [] ∧ createPath (some Geometry.missingCoords) = []
      ∧ createPath (some Geometry.otherType) = [] :=
  ⟨rfl, rfl, rfl⟩

/-- C4 counterexample: a ring with only two valid points is not skipped:
it contributes drawing commands (a move, a line and a close) to the path,
refuting the claim that such a ring contributes no commands. -/
theorem degenerate_ring_not_skipped :
    createPath (some (Geometry.polygon [[[0, 0], [10, 10]]])) ≠ [] := by
  decide

-- ## Helper lemmas on the scale clamp

lemma one_le_clamp18 (v : ℚ) : 1 ≤ max 1 (min 8 v) := le_max_left 1 _

lemma clamp18_le_eight (v : ℚ) : max 1 (min 8 v) ≤ 8 :=
  max_le (by norm_num) (min_le_left 8 v)

lemma clamp18_pos (v : ℚ) : 0 < max 1 (min 8 v) :=
  lt_of_lt_of_le one_pos (one_le_clamp18 v)

lemma clamp18_ne_zero (v : ℚ) : max 1 (min 8 v) ≠ 0 :=
  ne_of_gt (clamp18_pos v)

/-- The shared algebraic core of the three zoom handlers: the anchored
translation update keeps the plane point under the focal coordinate
fixed, for any nonzero old and new scale. -/
lemma zoom_formula_invariant (k x f k2 : ℚ) (hk : k ≠ 0) (hk2 : k2 ≠ 0) :
    (f - (f - (f - x) * (k2 / k))) / k2 = (f - x) / k := by
  field_simp
  ring

-- ## C1: focal-point invariance of zoom

/-- C1: zoom is focal-point invariant. For every transform with k > 0,
every scale factor, wheel event, and pinch event, the transform produced
by handleZoom, by the wheel handler, and by the pinch branch of the
touch-move handler each preserve the plane coordinate under the
respective focal point (canvas center, cursor viewbox position, touch
midpoint viewbox position), exactly over exact arithmetic: the scale is
clamped to [1, 8] and the translation is focal - (focal - t) * (k2/k). -/
theorem zoom_focal_invariant (prev : Transform)
    (factor deltaY clientX clientY distance midX midY d0 ps : ℚ)
    (rect : Rect) (hk : 0 < prev.k) :
    focalInvariantAt prev (handleZoom factor prev) (MAP_WIDTH / 2) (MAP_HEIGHT / 2)
    ∧ focalInvariantAt prev (handleWheel deltaY clientX clientY rect prev)
        ((clientX - rect.left) * (MAP_WIDTH / rect.width))
        ((clientY - rect.top) * (MAP_HEIGHT / rect.height))
    ∧ focalInvariantAt prev
        (handleTouchMovePinch distance midX midY rect d0 ps prev)
        ((midX - rect.left) * (MAP_WIDTH / rect.width))
        ((midY - rect.top) * (MAP_HEIGHT / rect.height)) := by
  have hk0 : prev.k ≠ 0 := ne_of_gt hk
  refine ⟨⟨?_, ?_⟩, ⟨?_, ?_⟩, ⟨?_, ?_⟩⟩ <;>
    simp only [handleZoom, handleWheel, handleTouchMovePinch] <;>
    exact zoom_formula_invariant _ _ _ _ hk0 (clamp18_ne_zero _)

/-- Witness for C1 at the transform {k := 2, x := 3, y := 4}, factor 3,
a wheel event at (7, 9) with deltaY 1, and a pinch event with distance 5,
midpoint (1, 2), baseline distance 2 and baseline scale 3, all on the
rectangle (0, 0, 1000, 500). -/
theorem zoom_focal_invariant_witness :
    0 < (Transform.mk 2 3 4).k
    ∧ (focalInvariantAt (Transform.mk 2 3 4)
          (handleZoom 3 (Transform.mk 2 3 4)) (MAP_WIDTH / 2) (MAP_HEIGHT / 2)
        ∧ focalInvariantAt (Transform.mk 2 3 4)
            (handleWheel 1 7 9 (Rect.mk 0 0 1000 500) (Transform.mk 2 3 4))
            ((7 - (Rect.mk 0 0 1000 500).left) * (MAP_WIDTH / (Rect.mk 0 0 1000 500).width))
            ((9 - (Rect.mk 0 0 1000 500).top) * (MAP_HEIGHT / (Rect.mk 0 0 1000 500).height))
        ∧ focalInvariantAt (Transform.mk 2 3 4)
            (handleTouchMovePinch 5 1 2 (Rect.mk 0 0 1000 500) 2 3 (Transform.mk 2 3 4))
            ((1 - (Rect.mk 0 0 1000 500).left) * (MAP_WIDTH / (Rect.mk 0 0 1000 500).width))
            ((2 - (Rect.mk 0 0 1000 500).top) * (MAP_HEIGHT / (Rect.mk 0 0 1000 500).height))) :=
  ⟨by norm_num,
   zoom_focal_invariant (Transform.mk 2 3 4) 3 1 7 9 5 1 2 2 3
     (Rect.mk 0 0 1000 500) (by norm_num)⟩

-- ## C2: the scale stays in [1, 8]

lemma handleMouseMove_k (clientX clientY : ℚ) (mapRect : Option Rect)
    (s : MapState) :
    (handleMouseMove clientX clientY mapRect s).transform.k = s.transform.k := by
  simp only [handleMouseMove]
  split
  · rfl
  · rfl

lemma stepEvent_k_bounds (s : MapState) (e : Event)
    (h1 : 1 ≤ s.transform.k) (h2 : s.transform.k ≤ 8) :
    1 ≤ (stepEvent s e).transform.k ∧ (stepEvent s e).transform.k ≤ 8 := by
  cases e with
  | zoomButton factor =>
      exact ⟨one_le_clamp18 _, clamp18_le_eight _⟩
  | resetZoom => exact ⟨le_refl 1, show (1 : ℚ) ≤ 8 by norm_num⟩
  | wheel deltaY cx cy mapRect =>
      cases mapRect with
      | none => exact ⟨h1, h2⟩
      | some rect => exact ⟨one_le_clamp18 _, clamp18_le_eight _⟩
  | mouseDown cx cy => exact ⟨h1, h2⟩
  | mouseMove cx cy mapRect =>
      have hk := handleMouseMove_k cx cy mapRect s
      exact ⟨hk.symm ▸ h1, hk.symm ▸ h2⟩
  | mouseUp => exact ⟨h1, h2⟩
  | touchStartPinch distance => exact ⟨h1, h2⟩
  | touchMovePinch distance midX midY t0x t0y mapRect =>
      simp only [stepEvent]
      rcases hp : s.pinchDistance with _ | d0 <;> rcases mapRect with _ | rect <;>
          simp only [handleMouseMove_k]
      · exact ⟨h1, h2⟩
      · exact ⟨h1, h2⟩
      · exact ⟨h1, h2⟩
      · by_cases hd : d0 = 0
        · simp only [if_pos hd, handleMouseMove_k]
          exact ⟨h1, h2⟩
        · simp only [if_neg hd]
          exact ⟨one_le_clamp18 _, clamp18_le_eight _⟩
  | touchEnd remaining =>
      simp only [stepEvent, handleMouseUp]
      split
      · exact ⟨h1, h2⟩
      · exact ⟨h1, h2⟩

lemma foldl_k_bounds (evs : List Event) (s : MapState)
    (h1 : 1 ≤ s.transform.k) (h2 : s.transform.k ≤ 8) :
    1 ≤ (evs.foldl stepEvent s).transform.k
      ∧ (evs.foldl stepEvent s).transform.k ≤ 8 := by
  induction evs generalizing s with
  | nil => exact ⟨h1, h2⟩
  | cons e evs ih =>
      have h := stepEvent_k_bounds s e h1 h2
      exact ih (stepEvent s e) h.1 h.2

/-- C2: starting from the initial transform {k: 1, x: 0, y: 0}, after
any finite sequence of gesture events (button zoom, wheel zoom, pinch
move, pan, reset, and the pointer and touch bookkeeping events), the
scale k of the viewport transform stays in [1, 8]. -/
theorem scale_clamped (evs : List Event) :
    1 ≤ (runEvents evs).transform.k ∧ (runEvents evs).transform.k ≤ 8 :=
  foldl_k_bounds evs initState (le_refl 1) (show (1 : ℚ) ≤ 8 by norm_num)

-- ## C3: the drag threshold is per-move, not cumulative

lemma if_threshold (P : Prop) [Decidable P] (b : Bool) :
    (if P then true else b) = (b || decide P) := by
  by_cases hP : P <;> simp [hP]

lemma decide_or_eq (P Q : Prop) [Decidable P] [Decidable Q] :
    decide (P ∨ Q) = (decide P || decide Q) := by
  by_cases hP : P <;> by_cases hQ : Q <;> simp [hP, hQ]

lemma handleMouseMove_run (clientX clientY : ℚ) (s : MapState)
    (hd : s.isDragging = true) :
    (handleMouseMove clientX clientY none s).isDragRef
        = (s.isDragRef || moveExceeds s.lastMousePos (clientX, clientY))
      ∧ (handleMouseMove clientX clientY none s).isDragging = true
      ∧ (handleMouseMove clientX clientY none s).lastMousePos
          = (clientX, clientY) := by
  refine ⟨?_, by simp only [handleMouseMove, hd, if_true],
    by simp only [handleMouseMove, hd, if_true]⟩
  simp only [handleMouseMove, hd, if_true, moveExceeds, if_threshold,
    decide_or_eq]

lemma session_moves_isDragRef (moves : List (ℚ × ℚ)) (s : MapState)
    (hd : s.isDragging = true) :
    (List.foldl stepEvent s
        (moves.map (fun m => Event.mouseMove m.1 m.2 none))).isDragRef
      = (s.isDragRef
          || ((s.lastMousePos :: moves).zip moves).any
               (fun ab => moveExceeds ab.1 ab.2)) := by
  induction moves generalizing s with
  | nil => simp
  | cons m ms ih =>
      have hstep := handleMouseMove_run m.1 m.2 s hd
      have hmain := ih (handleMouseMove m.1 m.2 none s) hstep.2.1
      simp only [List.map_cons, List.foldl_cons]
      show (List.foldl stepEvent (handleMouseMove m.1 m.2 none s)
              (ms.map (fun m => Event.mouseMove m.1 m.2 none))).isDragRef = _
      rw [hmain, hstep.1, hstep.2.2]
      simp only [List.zip_cons_cons, List.any_cons, Bool.or_assoc]

lemma runSession_isDragRef (p0 : ℚ × ℚ) (moves : List (ℚ × ℚ)) :
    (runSession p0 moves).isDragRef
      = ((p0 :: moves).zip moves).any (fun ab => moveExceeds ab.1 ab.2) := by
  simp only [runSession, runEvents, List.foldl_cons, List.foldl_append,
    List.foldl]
  show (handleMouseUp (List.foldl stepEvent (handleMouseDown p0.1 p0.2 initState)
          (moves.map (fun m => Event.mouseMove m.1 m.2 none)))).isDragRef = _
  have hs : (handleMouseDown p0.1 p0.2 initState).isDragging = true := rfl
  have hrun := session_moves_isDragRef moves (handleMouseDown p0.1 p0.2 initState) hs
  show (List.foldl stepEvent (handleMouseDown p0.1 p0.2 initState)
          (moves.map (fun m => Event.mouseMove m.1 m.2 none))).isDragRef = _
  rw [hrun]
  simp [handleMouseDown, initState]

/-- C3 counterexample: in the session pointer-down at (0, 0), three
successive 1-pixel moves to (1, 0), (2, 0), (3, 0) (cumulative movement
3 pixels from the down-position, which exceeds the threshold of 2), then
pointer-up, the drag flag is never set and a click fires, refuting the
claim that cumulative movement beyond 2 pixels suppresses the click. -/
theorem drag_threshold_counterexample :
    handleCountryClick (runSession (0, 0) [(1, 0), (2, 0), (3, 0)]) = true := by
  norm_num [runSession, runEvents, stepEvent, handleMouseDown, handleMouseMove,
    handleMouseUp, handleCountryClick, initState, List.foldl, abs]

/-- C3 (amended): the drag threshold is applied to each move's delta
from the previous position, not cumulatively from the down-position: in
a pointer session the drag flag ends set exactly when some single move
exceeded 2 pixels in either axis relative to the previous position. In
particular a session with a single 1-pixel move fires a click and a
session with a single 3-pixel move fires no click. -/
theorem drag_threshold_per_move (p0 : ℚ × ℚ) (moves : List (ℚ × ℚ)) :
    (runSession p0 moves).isDragRef
        = ((p0 :: moves).zip moves).any (fun ab => moveExceeds ab.1 ab.2)
      ∧ handleCountryClick (runSession (0, 0) [(1, 0)]) = true
      ∧ handleCountryClick (runSession (0, 0) [(3, 0)]) = false :=
  ⟨runSession_isDragRef p0 moves,
   by norm_num [runSession, runEvents, stepEvent, handleMouseDown,
     handleMouseMove, handleMouseUp, handleCountryClick, initState,
     List.foldl, abs],
   by norm_num [runSession, runEvents, stepEvent, handleMouseDown,
     handleMouseMove, handleMouseUp, handleCountryClick, initState,
     List.foldl, abs]⟩

-- ## C6: click fires iff the drag flag is unset; the flag survives release

/-- C6: handleCountryClick lets the click through exactly when the drag
flag is unset; pointer-up (and touch-end) leave the flag untouched while
pointer-down clears it; hence the click attempted right after the
drag-release session down (0,0), move (5,0), up is still suppressed. -/
theorem click_suppression_temporal :
    (∀ s : MapState, (stepEvent s Event.mouseUp).isDragRef = s.isDragRef)
      ∧ (∀ (s : MapState) (n : Nat),
          (stepEvent s (Event.touchEnd n)).isDragRef = s.isDragRef)
      ∧ (∀ (s : MapState) (cx cy : ℚ),
          (stepEvent s (Event.mouseDown cx cy)).isDragRef = false)
      ∧ (∀ s : MapState, handleCountryClick s = !s.isDragRef)
      ∧ handleCountryClick
          (runEvents [Event.mouseDown 0 0, Event.mouseMove 5 0 none,
            Event.mouseUp]) = false := by
  refine ⟨fun s => rfl, ?_, fun s cx cy => rfl, ?_, ?_⟩
  · intro s n
    simp only [stepEvent, handleMouseUp]
    split
    · rfl
    · rfl
  · intro s
    cases h : s.isDragRef <;> simp [handleCountryClick, h]
  · norm_num [runEvents, stepEvent, handleMouseDown, handleMouseMove,
      handleMouseUp, handleCountryClick, initState, List.foldl, abs]

-- ## C5: zero-width canvas is not guarded

/-- C5: with the map element present and a bounding rectangle of width
0, the pixel-to-plane ratio of handleMouseMove and the viewbox
conversions of handleWheel and of the pinch branch all divide by zero
and produce a non-finite value (none), not the fallback 1; the fallback
ratio 1 is applied only when the map element ref is null. This
contradicts the specified guard, exhibiting the code bug at the failing
input width = 0. -/
theorem zero_width_unguarded :
    mouseMoveScaleRatioJS (some (Rect.mk 0 0 0 0)) = none
      ∧ wheelSvgMxJS 5 (Rect.mk 0 0 0 500) = none
      ∧ pinchSvgMxJS 5 (Rect.mk 0 0 0 500) = none
      ∧ mouseMoveScaleRatioJS none = some 1 := by
  refine ⟨?_, ?_, ?_, rfl⟩ <;>
    simp [mouseMoveScaleRatioJS, wheelSvgMxJS, pinchSvgMxJS, jsDiv]

-- ## Counting lemmas for the path builder

lemma pointCmds_valid (i : Nat) (p : GeoPoint) (h : 2 ≤ p.length) :
    pointCmds i p = if i = 0
      then [PathCmd.move (project (p.getD 0 0) (p.getD 1 0)).1
              (project (p.getD 0 0) (p.getD 1 0)).2]
      else [PathCmd.line (project (p.getD 0 0) (p.getD 1 0)).1
              (project (p.getD 0 0) (p.getD 1 0)).2] := by
  simp only [pointCmds, if_pos h]

lemma pointCmds_invalid (i : Nat) (p : GeoPoint) (h : ¬ 2 ≤ p.length) :
    pointCmds i p = [] := by
  simp only [pointCmds, if_neg h]

lemma pointCmds_draw_count (i : Nat) (p : GeoPoint) :
    (pointCmds i p).countP isDrawCmd = if 2 ≤ p.length then 1 else 0 := by
  by_cases h : 2 ≤ p.length
  · rw [pointCmds_valid i p h, if_pos h]
    by_cases hi : i = 0 <;>
      simp [hi, List.countP_cons, isDrawCmd, isMoveCmd, isLineCmd]
  · rw [pointCmds_invalid i p h, if_neg h]
    rfl

lemma pointCmds_close_count (i : Nat) (p : GeoPoint) :
    (pointCmds i p).countP isCloseCmd = 0 := by
  by_cases h : 2 ≤ p.length
  · rw [pointCmds_valid i p h]
    by_cases hi : i = 0 <;> simp [hi, List.countP_cons, isCloseCmd]
  · rw [pointCmds_invalid i p h]
    rfl

lemma drawPoints_draw_count (i : Nat) (r : GeoRing) :
    (drawPoints i r).countP isDrawCmd = validCount r := by
  induction r generalizing i with
  | nil => rfl
  | cons p ps ih =>
      simp only [drawPoints, List.countP_append, validCount, List.countP_cons,
        pointCmds_draw_count]
      rw [show (ps.countP fun p => decide (2 ≤ p.length)) = validCount ps from rfl,
        ← ih (i + 1)]
      by_cases h : 2 ≤ p.length
      · simp [h]
        omega
      · simp [h]

lemma drawPoints_close_count (i : Nat) (r : GeoRing) :
    (drawPoints i r).countP isCloseCmd = 0 := by
  induction r generalizing i with
  | nil => rfl
  | cons p ps ih =>
      simp only [drawPoints, List.countP_append, pointCmds_close_count,
        ih (i + 1)]

lemma drawPolygon_draw_count (r : GeoRing) :
    (drawPolygon r).countP isDrawCmd = validCount r := by
  simp only [drawPolygon, List.countP_append, drawPoints_draw_count]
  simp [List.countP_cons, isDrawCmd, isMoveCmd, isLineCmd]

lemma drawPolygon_close_count (r : GeoRing) :
    (drawPolygon r).countP isCloseCmd = 1 := by
  simp only [drawPolygon, List.countP_append, drawPoints_close_count]
  simp [List.countP_cons, isCloseCmd]

-- ## C4 (amended): degenerate rings are traced, not skipped

/-- C4 (amended): a ring with fewer than 3 valid points is not skipped
and raises no error: the path builder still emits one drawing command
per valid point and exactly one close command for the ring. -/
theorem degenerate_ring_behavior (ring : GeoRing) (_h : validCount ring < 3) :
    (drawPolygon ring).countP isDrawCmd = validCount ring
      ∧ (drawPolygon ring).countP isCloseCmd = 1 :=
  ⟨drawPolygon_draw_count ring, drawPolygon_close_count ring⟩

/-- Witness for the amended C4 at the two-valid-point ring
[[0, 0], [10, 10]]. -/
theorem degenerate_ring_behavior_witness :
    validCount [[0, 0], [10, 10]] < 3
      ∧ ((drawPolygon [[0, 0], [10, 10]]).countP isDrawCmd
            = validCount [[0, 0], [10, 10]]
          ∧ (drawPolygon [[0, 0], [10, 10]]).countP isCloseCmd = 1) :=
  ⟨by decide, degenerate_ring_behavior [[0, 0], [10, 10]] (by decide)⟩

-- ## C8: triangle ring command counts; valid points are never dropped

/-- C8: a Polygon feature with a single ring of three valid points
builds a path with exactly one move, two lines and one close; and in
every ring an invalid point is skipped without dropping the remaining
valid points: the number of drawing commands equals the number of valid
points. -/
theorem triangle_path_counts (a b c : GeoPoint)
    (ha : 2 ≤ a.length) (hb : 2 ≤ b.length) (hc : 2 ≤ c.length) :
    ((createPath (some (Geometry.polygon [[a, b, c]]))).countP isMoveCmd = 1
      ∧ (createPath (some (Geometry.polygon [[a, b, c]]))).countP isLineCmd = 2
      ∧ (createPath (some (Geometry.polygon [[a, b, c]]))).countP isCloseCmd = 1)
    ∧ ∀ ring : GeoRing, (drawPolygon ring).countP isDrawCmd = validCount ring := by
  refine ⟨?_, fun ring => drawPolygon_draw_count ring⟩
  have hpath : createPath (some (Geometry.polygon [[a, b, c]]))
      = drawPolygon [a, b, c] := by
    simp [createPath]
  rw [hpath]
  simp [drawPolygon, drawPoints, pointCmds, ha, hb, hc, List.countP_cons,
    List.countP_append, isMoveCmd, isLineCmd, isCloseCmd]

/-- Witness for C8 at the triangle [0,0], [10,0], [0,10]. -/
theorem triangle_path_counts_witness :
    (2 ≤ ([0, 0] : GeoPoint).length ∧ 2 ≤ ([10, 0] : GeoPoint).length
        ∧ 2 ≤ ([0, 10] : GeoPoint).length)
      ∧ (((createPath (some (Geometry.polygon
              [[[0, 0], [10, 0], [0, 10]]]))).countP isMoveCmd = 1
          ∧ (createPath (some (Geometry.polygon
              [[[0, 0], [10, 0], [0, 10]]]))).countP isLineCmd = 2
          ∧ (createPath (some (Geometry.polygon
              [[[0, 0], [10, 0], [0, 10]]]))).countP isCloseCmd = 1)
        ∧ ∀ ring : GeoRing,
            (drawPolygon ring).countP isDrawCmd = validCount ring) :=
  ⟨⟨by decide, by decide, by decide⟩,
   triangle_path_counts [0, 0] [10, 0] [0, 10] (by decide) (by decide)
     (by decide)⟩

-- ## C10: move-vs-line keys on the original index 0

lemma drawPoints_all_line (i : Nat) (hi : i ≠ 0) (r : GeoRing) :
    ∀ c ∈ drawPoints i r, ∃ x y, c = PathCmd.line x y := by
  induction r generalizing i with
  | nil => intro c hc; cases hc
  | cons p ps ih =>
      intro c hc
      simp only [drawPoints, List.mem_append] at hc
      rcases hc with hc | hc
      · by_cases h : 2 ≤ p.length
        · rw [pointCmds_valid i p h, if_neg hi] at hc
          simp only [List.mem_singleton] at hc
          exact ⟨_, _, hc⟩
        · rw [pointCmds_invalid i p h] at hc
          cases hc
      · exact ih (i + 1) (Nat.succ_ne_zero i) c hc

lemma drawPoints_ne_nil (i : Nat) (r : GeoRing)
    (h : ∃ q ∈ r, 2 ≤ q.length) : drawPoints i r ≠ [] := by
  induction r generalizing i with
  | nil =>
      rcases h with ⟨q, hq, _⟩
      cases hq
  | cons p ps ih =>
      rcases h with ⟨q, hq, hlen⟩
      simp only [List.mem_cons] at hq
      rcases hq with rfl | hq
      · simp only [drawPoints]
        rw [pointCmds_valid i q hlen]
        by_cases hi : i = 0 <;> simp [hi]
      · simp only [drawPoints]
        intro hcontra
        exact ih (i + 1) ⟨q, hq, hlen⟩ (List.append_eq_nil.mp hcontra).2

lemma drawPoints_nil_of_invalid (i : Nat) (r : GeoRing)
    (h : ∀ p ∈ r, ¬ 2 ≤ p.length) : drawPoints i r = [] := by
  induction r generalizing i with
  | nil => rfl
  | cons p ps ih =>
      simp only [drawPoints]
      rw [pointCmds_invalid i p (h p (List.mem_cons_self p ps)),
        List.nil_append]
      exact ih (i + 1) (fun q hq => h q (List.mem_cons_of_mem p hq))

/-- C10: when the point at index 0 of a ring is invalid but a later
point is valid, the emitted subpath begins with a line command, not a
move, because the move-vs-line choice keys on the original index; and a
ring with zero valid points still contributes exactly the close command
to the path rather than nothing. -/
theorem invalid_first_point_line_start :
    (∀ (p0 : GeoPoint) (rest : GeoRing), ¬ 2 ≤ p0.length →
        (∃ q ∈ rest, 2 ≤ q.length) →
        ∃ x y cs, drawPolygon (p0 :: rest) = PathCmd.line x y :: cs)
      ∧ ∀ ring : GeoRing, (∀ p ∈ ring, ¬ 2 ≤ p.length) →
          drawPolygon ring = [PathCmd.close] := by
  constructor
  · intro p0 rest h0 hrest
    have hne := drawPoints_ne_nil 1 rest hrest
    rcases List.exists_cons_of_ne_nil hne with ⟨c, cs, hcs⟩
    have hmem : c ∈ drawPoints 1 rest := by
      rw [hcs]
      exact List.mem_cons_self c cs
    rcases drawPoints_all_line 1 Nat.one_ne_zero rest c hmem with ⟨x, y, rfl⟩
    refine ⟨x, y, cs ++ [PathCmd.close], ?_⟩
    simp only [drawPolygon, drawPoints, pointCmds_invalid 0 p0 h0,
      List.nil_append]
    rw [hcs]
    rfl
  · intro ring hall
    simp only [drawPolygon, drawPoints_nil_of_invalid 0 ring hall,
      List.nil_append]

/-- Witness for C10: the ring [5] :: [[0, 0]] (invalid index 0, valid
index 1) begins with a line command, and the all-invalid ring
[[1], [2]] contributes exactly the close command. -/
theorem invalid_first_point_line_start_witness :
    (¬ 2 ≤ ([5] : GeoPoint).length)
      ∧ (∃ q ∈ ([[0, 0]] : GeoRing), 2 ≤ q.length)
      ∧ (∃ x y cs, drawPolygon (([5] : GeoPoint) :: ([[0, 0]] : GeoRing))
            = PathCmd.line x y :: cs)
      ∧ (∀ p ∈ ([[1], [2]] : GeoRing), ¬ 2 ≤ p.length)
      ∧ drawPolygon ([[1], [2]] : GeoRing) = [PathCmd.close] :=
  ⟨by decide, ⟨[0, 0], by decide, by decide⟩,
   invalid_first_point_line_start.1 [5] [[0, 0]] (by decide)
     ⟨[0, 0], by decide, by decide⟩,
   by decide,
   invalid_first_point_line_start.2 [[1], [2]] (by decide)⟩

-- ## C7: MultiPolygon label anchor

lemma foldl_min_le (l : List ℚ) (a : ℚ) :
    l.foldl min a ≤ a ∧ ∀ x ∈ l, l.foldl min a ≤ x := by
  induction l generalizing a with
  | nil => exact ⟨le_refl a, fun x hx => absurd hx (List.not_mem_nil x)⟩
  | cons y ys ih =>
      have h := ih (min a y)
      refine ⟨le_trans h.1 (min_le_left a y), ?_⟩
      intro x hx
      rcases List.mem_cons.mp hx with rfl | hx
      · exact le_trans h.1 (min_le_right a x)
      · exact h.2 x hx

lemma foldl_min_mem (l : List ℚ) (a : ℚ) :
    l.foldl min a = a ∨ l.foldl min a ∈ l := by
  induction l generalizing a with
  | nil => exact Or.inl rfl
  | cons y ys ih =>
      rcases ih (min a y) with h | h
      · rcases min_choice a y with hm | hm
        · exact Or.inl (by rw [List.foldl_cons, h, hm])
        · refine Or.inr ?_
          rw [List.foldl_cons, h, hm]
          exact List.mem_cons_self y ys
      · exact Or.inr (List.mem_cons_of_mem y h)

lemma foldl_max_le (l : List ℚ) (a : ℚ) :
    a ≤ l.foldl max a ∧ ∀ x ∈ l, x ≤ l.foldl max a := by
  induction l generalizing a with
  | nil => exact ⟨le_refl a, fun x hx => absurd hx (List.not_mem_nil x)⟩
  | cons y ys ih =>
      have h := ih (max a y)
      refine ⟨le_trans (le_max_left a y) h.1, ?_⟩
      intro x hx
      rcases List.mem_cons.mp hx with rfl | hx
      · exact le_trans (le_max_right a x) h.1
      · exact h.2 x hx

lemma foldl_max_mem (l : List ℚ) (a : ℚ) :
    l.foldl max a = a ∨ l.foldl max a ∈ l := by
  induction l generalizing a with
  | nil => exact Or.inl rfl
  | cons y ys ih =>
      rcases ih (max a y) with h | h
      · rcases max_choice a y with hm | hm
        · exact Or.inl (by rw [List.foldl_cons, h, hm])
        · refine Or.inr ?_
          rw [List.foldl_cons, h, hm]
          exact List.mem_cons_self y ys
      · exact Or.inr (List.mem_cons_of_mem y h)


lemma foldMinJS_from_some (xs : List (Option ℚ)) (m : ℚ) :
    xs.foldl foldMinStepJS (some m) = some ((xs.filterMap id).foldl min m) := by
  induction xs generalizing m with
  | nil => rfl
  | cons x xs ih =>
      cases x with
      | none =>
          have hfm : List.filterMap id (none :: xs) = List.filterMap id xs := by
            simp
          rw [hfm]
          exact ih m
      | some v =>
          have hstep : foldMinStepJS (some m) (some v) = some (min m v) := by
            simp only [foldMinStepJS]
            rcases lt_or_le v m with h | h
            · rw [if_pos h, min_eq_right (le_of_lt h)]
            · rw [if_neg (not_lt.mpr h), min_eq_left h]
          have hfm : List.filterMap id (some v :: xs) = v :: List.filterMap id xs := by
            simp
          rw [List.foldl_cons, hstep, hfm, List.foldl_cons]
          exact ih (min m v)

lemma foldMaxJS_from_some (xs : List (Option ℚ)) (m : ℚ) :
    xs.foldl foldMaxStepJS (some m) = some ((xs.filterMap id).foldl max m) := by
  induction xs generalizing m with
  | nil => rfl
  | cons x xs ih =>
      cases x with
      | none =>
          have hfm : List.filterMap id (none :: xs) = List.filterMap id xs := by
            simp
          rw [hfm]
          exact ih m
      | some v =>
          have hstep : foldMaxStepJS (some m) (some v) = some (max m v) := by
            simp only [foldMaxStepJS]
            rcases lt_or_le m v with h | h
            · rw [if_pos h, max_eq_right (le_of_lt h)]
            · rw [if_neg (not_lt.mpr h), max_eq_left h]
          have hfm : List.filterMap id (some v :: xs) = v :: List.filterMap id xs := by
            simp
          rw [List.foldl_cons, hstep, hfm, List.foldl_cons]
          exact ih (max m v)

lemma foldMinJS_eq (xs : List (Option ℚ)) :
    foldMinJS xs = match xs.filterMap id with
      | [] => none
      | v :: vs => some (vs.foldl min v) := by
  induction xs with
  | nil => rfl
  | cons x xs ih =>
      cases x with
      | none =>
          have hfm : List.filterMap id (none :: xs) = List.filterMap id xs := by
            simp
          rw [foldMinJS, List.foldl_cons]
          rw [hfm]
          exact ih
      | some v =>
          have hfm : List.filterMap id (some v :: xs) = v :: List.filterMap id xs := by
            simp
          rw [foldMinJS, List.foldl_cons, hfm]
          exact foldMinJS_from_some xs v

lemma foldMaxJS_eq (xs : List (Option ℚ)) :
    foldMaxJS xs = match xs.filterMap id with
      | [] => none
      | v :: vs => some (vs.foldl max v) := by
  induction xs with
  | nil => rfl
  | cons x xs ih =>
      cases x with
      | none =>
          have hfm : List.filterMap id (none :: xs) = List.filterMap id xs := by
            simp
          rw [foldMaxJS, List.foldl_cons]
          rw [hfm]
          exact ih
      | some v =>
          have hfm : List.filterMap id (some v :: xs) = v :: List.filterMap id xs := by
            simp
          rw [foldMaxJS, List.foldl_cons, hfm]
          exact foldMaxJS_from_some xs v

lemma bbox_mid_spec (xs : List (Option ℚ)) :
    isBBoxMidJS xs (midJS (foldMinJS xs) (foldMaxJS xs)) := by
  rcases hf : xs.filterMap id with _ | ⟨v, vs⟩
  · right
    have h1 : foldMinJS xs = none := by rw [foldMinJS_eq, hf]
    have h2 : foldMaxJS xs = none := by rw [foldMaxJS_eq, hf]
    refine ⟨hf, ?_⟩
    rw [h1, h2]
    rfl
  · left
    have h1 : foldMinJS xs = some (vs.foldl min v) := by rw [foldMinJS_eq, hf]
    have h2 : foldMaxJS xs = some (vs.foldl max v) := by rw [foldMaxJS_eq, hf]
    refine ⟨vs.foldl min v, vs.foldl max v, ?_, ?_, ?_, ?_⟩
    · rw [hf]
      rcases foldl_min_mem vs v with h | h
      · rw [h]
        exact List.mem_cons_self _ _
      · exact List.mem_cons_of_mem _ h
    · rw [hf]
      rcases foldl_max_mem vs v with h | h
      · rw [h]
        exact List.mem_cons_self _ _
      · exact List.mem_cons_of_mem _ h
    · rw [hf]
      intro w hw
      rcases List.mem_cons.mp hw with rfl | hw
      · exact ⟨(foldl_min_le vs _).1, (foldl_max_le vs _).1⟩
      · exact ⟨(foldl_min_le vs v).2 w hw, (foldl_max_le vs v).2 w hw⟩
    · rw [h1, h2]
      rfl

lemma bestRingMultiJS_spec (polys : List (List GeoRing)) (acc : Nat × GeoRing)
    (hlen : acc.1 = acc.2.length) (hne : ∀ poly ∈ polys, poly ≠ []) :
    ∃ res : Nat × GeoRing,
      bestRingMultiJS polys acc = JSOutcome.returns res
      ∧ res.1 = res.2.length
      ∧ (res.2 = acc.2 ∨ res.2 ∈ firstRings polys)
      ∧ (∀ r ∈ firstRings polys, r.length ≤ res.1)
      ∧ acc.1 ≤ res.1 := by
  induction polys generalizing acc with
  | nil =>
      refine ⟨acc, rfl, hlen, Or.inl rfl, ?_, le_refl _⟩
      intro r hr
      exact absurd hr (List.not_mem_nil r)
  | cons poly ps ih =>
      rcases List.exists_cons_of_ne_nil (hne poly (List.mem_cons_self _ _))
        with ⟨r0, tl, rfl⟩
      have hne2 : ∀ p ∈ ps, p ≠ [] := fun p hp => hne p (List.mem_cons_of_mem _ hp)
      have hfr : firstRings ((r0 :: tl) :: ps) = r0 :: firstRings ps := rfl
      by_cases hlt : acc.1 < r0.length
      · have hstep : bestRingStepJS acc (r0 :: tl)
            = JSOutcome.returns (r0.length, r0) := by
          simp only [bestRingStepJS, List.head?, if_pos hlt]
        have hrun : bestRingMultiJS ((r0 :: tl) :: ps) acc
            = bestRingMultiJS ps (r0.length, r0) := by
          simp only [bestRingMultiJS, hstep]
        obtain ⟨res, h1, h2, h3, h4, h5⟩ := ih (r0.length, r0) rfl hne2
        refine ⟨res, hrun.trans h1, h2, ?_, ?_, le_trans (le_of_lt hlt) h5⟩
        · rcases h3 with h | h
          · refine Or.inr ?_
            rw [hfr, h]
            exact List.mem_cons_self _ _
          · rw [hfr]
            exact Or.inr (List.mem_cons_of_mem _ h)
        · intro r hr
          rw [hfr] at hr
          rcases List.mem_cons.mp hr with h | h
          · rw [h]
            exact h5
          · exact h4 r h
      · have hstep : bestRingStepJS acc (r0 :: tl) = JSOutcome.returns acc := by
          simp only [bestRingStepJS, List.head?, if_neg hlt]
        have hrun : bestRingMultiJS ((r0 :: tl) :: ps) acc
            = bestRingMultiJS ps acc := by
          simp only [bestRingMultiJS, hstep]
        obtain ⟨res, h1, h2, h3, h4, h5⟩ := ih acc hlen hne2
        refine ⟨res, hrun.trans h1, h2, ?_, ?_, h5⟩
        · rcases h3 with h | h
          · exact Or.inl h
          · rw [hfr]
            exact Or.inr (List.mem_cons_of_mem _ h)
        · intro r hr
          rw [hfr] at hr
          rcases List.mem_cons.mp hr with h | h
          · rw [h]
            exact le_trans (le_of_not_lt hlt) h5
          · exact h4 r h

/-- C7 (amended): for a MultiPolygon all of whose constituent polygons
contain at least one ring (the domain on which poly[0].length does not
throw), the forEach returns a best entry whose ring is one of the first
rings and has maximal vertex count among all first rings (so not simply
the first polygon listed); when that ring is empty the result is null
(in particular for the empty MultiPolygon); otherwise an object is
returned whose x and y are each the bounding-box midpoint of the finite
projected coordinates of the ring's points for that axis (coordinates
of short points are NaN, never win a min/max comparison, and are
skipped; an axis with no finite coordinate yields NaN). -/
theorem multipolygon_label_anchor :
    (∀ polys : List (List GeoRing), (∀ poly ∈ polys, poly ≠ []) →
        ∃ best : Nat × GeoRing,
          bestRingMultiJS polys (0, []) = JSOutcome.returns best
          ∧ (best.2 = [] ∨ best.2 ∈ firstRings polys)
          ∧ (∀ r ∈ firstRings polys, r.length ≤ best.2.length)
          ∧ ((best.2 = []
                ∧ getLabelPositionJS (Geometry.multiPolygon polys)
                    = JSOutcome.returns none)
              ∨ ∃ cx cy : Option ℚ,
                  getLabelPositionJS (Geometry.multiPolygon polys)
                    = JSOutcome.returns (some (cx, cy))
                  ∧ isBBoxMidJS (ringXs best.2) cx
                  ∧ isBBoxMidJS (ringYs best.2) cy))
      ∧ getLabelPositionJS (Geometry.multiPolygon [])
          = JSOutcome.returns none := by
  constructor
  · intro polys hne
    obtain ⟨best, h1, h2, h3, h4, h5⟩ := bestRingMultiJS_spec polys (0, []) rfl hne
    have hlabel : getLabelPositionJS (Geometry.multiPolygon polys)
        = labelFromBestRing best.2 := by
      simp only [getLabelPositionJS, h1]
    refine ⟨best, h1, h3, fun r hr => h2 ▸ h4 r hr, ?_⟩
    rcases hbest : best.2 with _ | ⟨p, tlr⟩
    · left
      refine ⟨rfl, ?_⟩
      rw [hlabel, hbest]
      rfl
    · right
      refine ⟨midJS (foldMinJS (ringXs (p :: tlr))) (foldMaxJS (ringXs (p :: tlr))),
        midJS (foldMinJS (ringYs (p :: tlr))) (foldMaxJS (ringYs (p :: tlr))),
        ?_, bbox_mid_spec _, bbox_mid_spec _⟩
      rw [hlabel, hbest]
      rfl
  · rfl

/-- C7 counterexample: on the MultiPolygon [[]] — one constituent
polygon with no rings, hence no usable ring — the source throws a
TypeError at poly[0].length instead of returning null, refuting the
claimed none result and the claimed anchor computation for every
MultiPolygon feature. -/
theorem label_anchor_throws_counterexample :
    getLabelPositionJS (Geometry.multiPolygon [[]]) = JSOutcome.throws
      ∧ getLabelPositionJS (Geometry.multiPolygon [[]])
          ≠ JSOutcome.returns none := by
  exact ⟨rfl, fun h => JSOutcome.noConfusion h⟩

/-- Two polygons whose first rings have 2 and 4 vertices: the anchor
must come from the second, larger one. -/
def anchorWitnessPolys : List (List GeoRing) :=
  [[[[0, 0], [30, 0]]], [[[0, 0], [40, 0], [40, 40], [0, 40]]]]

/-- Witness for C7 at anchorWitnessPolys: every polygon is nonempty, the
theorem applies, and the computed label is the bbox midpoint
(5000/9, 1750/9) of the 4-vertex first ring of the second polygon. -/
theorem multipolygon_label_anchor_witness :
    (∀ poly ∈ anchorWitnessPolys, poly ≠ [])
      ∧ (∃ best : Nat × GeoRing,
          bestRingMultiJS anchorWitnessPolys (0, []) = JSOutcome.returns best
          ∧ (best.2 = [] ∨ best.2 ∈ firstRings anchorWitnessPolys)
          ∧ (∀ r ∈ firstRings anchorWitnessPolys, r.length ≤ best.2.length)
          ∧ ((best.2 = []
                ∧ getLabelPositionJS (Geometry.multiPolygon anchorWitnessPolys)
                    = JSOutcome.returns none)
              ∨ ∃ cx cy : Option ℚ,
                  getLabelPositionJS (Geometry.multiPolygon anchorWitnessPolys)
                    = JSOutcome.returns (some (cx, cy))
                  ∧ isBBoxMidJS (ringXs best.2) cx
                  ∧ isBBoxMidJS (ringYs best.2) cy))
      ∧ getLabelPositionJS (Geometry.multiPolygon anchorWitnessPolys)
          = JSOutcome.returns (some (some (5000 / 9), some (1750 / 9))) := by
  refine ⟨by decide, multipolygon_label_anchor.1 anchorWitnessPolys (by decide), ?_⟩
  norm_num [getLabelPositionJS, anchorWitnessPolys, bestRingMultiJS,
    bestRingStepJS, labelFromBestRing, foldMinJS, foldMaxJS, foldMinStepJS,
    foldMaxStepJS, midJS, ringXs, ringYs, projectJS, MAP_WIDTH, MAP_HEIGHT,
    List.foldl, List.head?, List.isEmpty]
